import Mathlib

/-!
# Verification of the `debug_mqtt_server` broker (src/debug_mqtt_server/main.cpp)

A shallow embedding of the broker core of the repository's MQTT debug
server.  Bytes are modelled as `Nat` values (the C++ code stores them in
`uint8_t`, so every value fed in by the network is `< 256`); buffers are
`List Nat`; the session map `std::map<int, ClientSession>` is modelled as an
association list in ascending-key iteration order; socket writes are
modelled as an output list of `(fd, bytes)` pairs (the embedding assumes
every `send` succeeds, which is the only behaviour the verified claims
speak about); `std::cout` logging is modelled as a list of `LogEvent`
values, emitted under exactly the configuration conditions the C++ code
tests before printing.  Closing a socket (`close(fd); fd = -1;`) is
modelled by setting the session's `fd` field to `-1`; the server loop in
`main` removes sessions whose `fd` is negative at the end of the tick.
-/

namespace MqttDebug

/-- `Config` from main.cpp lines 27–35, with the C++ default member values
reproduced in `defaultConfig`.  The structure has exactly the seven fields
of the source; in particular there is no reflection flag and no
disconnect-on-error flag. -/
structure Config where
  port : Int
  maxClients : Int
  logPackets : Bool
  traceSubscriptions : Bool
  traceMessages : Bool
  quiet : Bool
  artificialDelayMs : Int
  deriving DecidableEq

/-- The default-constructed `Config` (the C++ member initialisers). -/
def defaultConfig : Config :=
  { port := 1883, maxClients := 8, logPackets := false,
    traceSubscriptions := false, traceMessages := true, quiet := false,
    artificialDelayMs := 0 }

/-- `ClientSession` from main.cpp lines 20–25.  `subscriptions` is a
`std::set<std::string>`; it is modelled as a duplicate-free list whose
membership relation is what the code queries via `count`.  `clientId` and
topic strings are byte lists (`std::string` is a byte container here). -/
structure ClientSession where
  fd : Int
  clientId : List Nat
  subscriptions : List (List Nat)
  inbox : List Nat
  deriving DecidableEq

/-- One line printed by the broker.  Each constructor corresponds to one
`std::cout`/`log` site in main.cpp, and is emitted by the embedding exactly
when the configuration conditions guarding that print site hold. -/
inductive LogEvent where
  /-- `[raw] op=... bytes=...` (line 158, when `cfg.logPackets`). -/
  | raw (op : Nat) (bytes : List Nat)
  /-- `[connect] clientId=...` (line 178, unless quiet). -/
  | connect (cid : List Nat)
  /-- `[publish] from=... topic=... payload=...` (line 209). -/
  | publish (cid topic payload : List Nat)
  /-- `[subscribe] ... -> ...` (line 228, when `cfg.traceSubscriptions`, unless quiet). -/
  | subscribe (cid topic : List Nat)
  /-- `[ping] from ...` (line 235, unless quiet). -/
  | ping (cid : List Nat)
  /-- `[disconnect] ...` (line 240, unless quiet). -/
  | disconnect (cid : List Nat)
  /-- `[warn] Unhandled packet type ...` (line 246, unless quiet). -/
  | warnUnhandled (t : Nat)
  /-- `Forwarded to ... on topic ...` (line 138, when verbose). -/
  | forwarded (cid topic : List Nat)
  deriving DecidableEq

/-- Big-endian 16-bit read `(hi << 8) | lo`, as computed into a `uint16_t`
(main.cpp lines 166, 171, 188, 197, 217, 220). -/
def be16 (hi lo : Nat) : Nat :=
  ((hi <<< 8) ||| lo) % 65536

/-- `len` bytes of `l` starting at `pos` (a `std::string(ptr, len)` view). -/
def sliceBytes (l : List Nat) (pos len : Nat) : List Nat :=
  (l.drop pos).take len

/-- The loop body of `decodeRemainingLength` (main.cpp lines 57–73).  The
first argument is the part of the buffer from the current read position on;
`consumed`, `mult` and `len` are the loop state.  Returns
`some (consumed', length)` when the continuation bit clears (the `return
true` at line 68), `none` when the buffer runs out (line 72) or when
`consumed > 4` after reading a byte with the continuation bit set
(line 70). -/
def decodeRLCore : List Nat → Nat → Nat → Nat → Option (Nat × Nat)
  | [], _, _, _ => none
  | b :: rest, consumed, mult, len =>
    let len' := len + (b &&& 127) * mult
    let consumed' := consumed + 1
    if b &&& 128 == 0 then some (consumed', len')
    else if consumed' > 4 then none
    else decodeRLCore rest consumed' (mult * 128) len'

/-- `decodeRemainingLength` (main.cpp lines 57–73) on a buffer starting at
`offset`.  The C++ function advances `offset` by the number of bytes
consumed and writes the decoded value to `length`; here the result is
`some (new offset, length)`, and `none` for both the incomplete-buffer and
the over-long cases (the C++ merges them into one `false`). -/
def decodeRemainingLength (buf : List Nat) (offset : Nat) : Option (Nat × Nat) :=
  (decodeRLCore (buf.drop offset) 0 1 0).map (fun p => (offset + p.1, p.2))

/-- The do/while body of `encodeRemainingLength` (main.cpp lines 75–84),
with a structural fuel argument: each iteration divides `length` by 128,
so any fuel above `length` runs the loop to completion (the wrapper below
passes `length + 1`). -/
def encodeRLAux : Nat → Nat → List Nat
  | 0, _ => []
  | fuel + 1, length =>
    let encoded := length % 128
    let length' := length / 128
    if length' > 0 then (encoded ||| 128) :: encodeRLAux fuel length'
    else [encoded]

/-- `encodeRemainingLength` (main.cpp lines 75–84): the do/while loop that
emits 7 payload bits per byte, setting the continuation bit whenever more
bytes follow. -/
def encodeRemainingLength (length : Nat) : List Nat :=
  encodeRLAux (length + 1) length

/-- `buildPublish` (main.cpp lines 116–129): the QoS-0 PUBLISH frame sent
to each subscriber — first byte `0x30`, encoded remaining length, 2-byte
topic length, topic, payload. -/
def buildPublish (topic payload : List Nat) : List Nat :=
  let variableHdr := ((topic.length >>> 8) % 256) :: (topic.length % 256) :: (topic ++ payload)
  (0x30 :: encodeRemainingLength variableHdr.length) ++ variableHdr

/-- `broadcast` (main.cpp lines 131–143): walk the client map, skip the
sender's fd, and send `buildPublish topic payload` to every other session
subscribed to `topic`; log a `Forwarded` line per delivery when verbose.
Returns the writes and the log lines, in map-iteration order. -/
def broadcast (topic payload : List Nat) (clients : List (Int × ClientSession))
    (senderFd : Int) (verbose : Bool) : List (Int × List Nat) × List LogEvent :=
  match clients with
  | [] => ([], [])
  | (k, s) :: rest =>
    let r := broadcast topic payload rest senderFd verbose
    if k = senderFd then r
    else if topic ∈ s.subscriptions then
      ((k, buildPublish topic payload) :: r.1,
       (if verbose then [LogEvent.forwarded s.clientId topic] else []) ++ r.2)
    else r

/-- Result of dispatching one extracted packet: the updated session, the
bytes written, the log lines, and whether the dispatch loop stops (the
`return` in the DISCONNECT case, main.cpp line 243). -/
structure StepResult where
  client : ClientSession
  outs : List (Int × List Nat)
  logs : List LogEvent
  halt : Bool
  deriving DecidableEq

/-- The CONNECT case (main.cpp lines 163–184): skip the protocol name,
level/flags/keepalive, read the client id; an absent or empty id keeps the
current one; log and answer `CONNACK 20 02 00 00`.  Each failed bounds
check is the corresponding `break` (packet discarded, no response). -/
def handleConnect (cfg : Config) (offset : Nat) (packet : List Nat)
    (client : ClientSession) : StepResult :=
  if offset + 2 > packet.length then ⟨client, [], [], false⟩
  else
    let protoLen := be16 (packet.getD offset 0) (packet.getD (offset + 1) 0)
    let pos := offset + 2 + protoLen
    if pos + 4 > packet.length then ⟨client, [], [], false⟩
    else
      let pos := pos + 4
      if pos + 2 > packet.length then ⟨client, [], [], false⟩
      else
        let cidLen := be16 (packet.getD pos 0) (packet.getD (pos + 1) 0)
        let pos := pos + 2
        let cid := if pos + cidLen ≤ packet.length then sliceBytes packet pos cidLen else []
        let newCid := if cid = [] then client.clientId else cid
        ⟨{ client with clientId := newCid },
         [(client.fd, [0x20, 0x02, 0x00, 0x00])],
         if cfg.quiet then [] else [LogEvent.connect newCid],
         false⟩

/-- The PUBLISH case (main.cpp lines 185–213): read the topic, read a
packet id and send PUBACK when the fixed-header QoS bits are nonzero, take
the rest as payload, optionally log, then `broadcast`. -/
def handlePublish (cfg : Config) (clients : List (Int × ClientSession))
    (header offset : Nat) (packet : List Nat) (client : ClientSession) : StepResult :=
  if offset + 2 > packet.length then ⟨client, [], [], false⟩
  else
    let topicLen := be16 (packet.getD offset 0) (packet.getD (offset + 1) 0)
    let pos := offset + 2
    if pos + topicLen > packet.length then ⟨client, [], [], false⟩
    else
      let topic := sliceBytes packet pos topicLen
      let pos := pos + topicLen
      let qos := (header >>> 1) &&& 3
      if qos > 0 then
        if pos + 2 > packet.length then ⟨client, [], [], false⟩
        else
          let packetId := be16 (packet.getD pos 0) (packet.getD (pos + 1) 0)
          let pos := pos + 2
          let payload := if pos < packet.length then packet.drop pos else []
          let bc := broadcast topic payload clients client.fd cfg.traceMessages
          ⟨client,
           (client.fd, [0x40, 0x02, (packetId >>> 8) % 256, packetId % 256]) :: bc.1,
           (if cfg.traceMessages && !cfg.quiet then [LogEvent.publish client.clientId topic payload] else [])
             ++ bc.2,
           false⟩
      else
        let payload := if pos < packet.length then packet.drop pos else []
        let bc := broadcast topic payload clients client.fd cfg.traceMessages
        ⟨client, bc.1,
         (if cfg.traceMessages && !cfg.quiet then [LogEvent.publish client.clientId topic payload] else [])
           ++ bc.2,
         false⟩

/-- The topic-filter loop of the SUBSCRIBE case (main.cpp lines 219–230),
with a structural fuel argument: each iteration advances `pos` by at least
three while the loop only runs with `pos + 2 ≤ packet.length`, so any fuel
of at least `packet.length + 1` runs the loop to completion (the `subLoop`
wrapper passes exactly that).  While two length bytes fit, read a topic
(stopping if the topic plus its QoS byte overruns the packet), insert it
into the subscription set, and optionally log. -/
def subLoopAux (cfg : Config) (packet : List Nat) (cid : List Nat) :
    Nat → Nat → List (List Nat) → List (List Nat) × List LogEvent
  | 0, _, subs => (subs, [])
  | fuel + 1, pos, subs =>
    if pos + 2 ≤ packet.length then
      let topicLen := be16 (packet.getD pos 0) (packet.getD (pos + 1) 0)
      let pos2 := pos + 2
      if pos2 + topicLen + 1 > packet.length then (subs, [])
      else
        let topic := sliceBytes packet pos2 topicLen
        let subs' := if topic ∈ subs then subs else subs ++ [topic]
        let logs := if cfg.traceSubscriptions && !cfg.quiet then [LogEvent.subscribe cid topic] else []
        let r := subLoopAux cfg packet cid fuel (pos2 + topicLen + 1) subs'
        (r.1, logs ++ r.2)
    else (subs, [])

/-- The topic-filter loop of the SUBSCRIBE case (main.cpp lines 219–230). -/
def subLoop (cfg : Config) (packet : List Nat) (pos : Nat) (cid : List Nat)
    (subs : List (List Nat)) : List (List Nat) × List LogEvent :=
  subLoopAux cfg packet cid (packet.length + 1) pos subs

/-- The SUBSCRIBE case (main.cpp lines 214–233): read the packet id (a
short packet `break`s before `sendSuback`), run the topic loop, then send
the SUBACK `90 03 PH PL 00` built by `sendSuback` (lines 106–109) — note
the fixed single granted-QoS byte. -/
def handleSubscribe (cfg : Config) (offset : Nat) (packet : List Nat)
    (client : ClientSession) : StepResult :=
  if offset + 2 > packet.length then ⟨client, [], [], false⟩
  else
    let packetId := be16 (packet.getD offset 0) (packet.getD (offset + 1) 0)
    let r := subLoop cfg packet (offset + 2) client.clientId client.subscriptions
    ⟨{ client with subscriptions := r.1 },
     [(client.fd, [0x90, 0x03, (packetId >>> 8) % 256, packetId % 256, 0x00])],
     r.2, false⟩

/-- The `switch (type)` of `processPacket` (main.cpp lines 161–247),
dispatching on `header >> 4`.  PINGREQ answers `D0 00`; DISCONNECT closes
the socket (`fd := -1`) and halts the dispatch loop; any other type logs
an unhandled-type warning and continues. -/
def handlePacket (cfg : Config) (clients : List (Int × ClientSession))
    (header offset : Nat) (packet : List Nat) (client : ClientSession) : StepResult :=
  let t := header >>> 4
  if t = 1 then handleConnect cfg offset packet client
  else if t = 3 then handlePublish cfg clients header offset packet client
  else if t = 8 then handleSubscribe cfg offset packet client
  else if t = 12 then
    ⟨client, [(client.fd, [0xD0, 0x00])],
     if cfg.quiet then [] else [LogEvent.ping client.clientId], false⟩
  else if t = 14 then
    ⟨{ client with fd := -1 }, [],
     if cfg.quiet then [] else [LogEvent.disconnect client.clientId], true⟩
  else
    ⟨client, [], if cfg.quiet then [] else [LogEvent.warnUnhandled t], false⟩

/-- The `while (client.inbox.size() >= 2)` loop of `processPacket`
(main.cpp lines 145–249), written with a fuel argument so that the
function is structurally recursive.  Each iteration extracts at least two
bytes from the inbox, so any fuel of at least `inbox.length` makes the
function agree with the unbounded C++ loop (`processPacketAux_fuel`
below); the wrapper `processPacket` passes exactly that.  An iteration:
if fewer than two bytes are buffered, stop; decode the remaining length
starting after the header byte (stopping, inbox untouched, when it fails);
stop if the full frame is not buffered yet; otherwise split the frame off
the front of the inbox, optionally emit the raw log line, dispatch, and
either halt (DISCONNECT) or loop. -/
def processPacketAux (cfg : Config) (clients : List (Int × ClientSession)) :
    Nat → ClientSession → ClientSession × List (Int × List Nat) × List LogEvent
  | 0, client => (client, [], [])
  | fuel + 1, client =>
    if h2 : 2 ≤ client.inbox.length then
      match decodeRemainingLength client.inbox 1 with
      | none => (client, [], [])
      | some (offset, remLen) =>
        if hc : client.inbox.length < offset + remLen then (client, [], [])
        else
          let header := client.inbox.getD 0 0
          let packet := client.inbox.take (offset + remLen)
          let rest := client.inbox.drop (offset + remLen)
          let rawLogs := if cfg.logPackets then [LogEvent.raw ((header >>> 4) &&& 15) packet] else []
          let r := handlePacket cfg clients header offset packet client
          let client1 := { r.client with inbox := rest }
          if r.halt then (client1, r.outs, rawLogs ++ r.logs)
          else
            let next := processPacketAux cfg clients fuel client1
            (next.1, r.outs ++ next.2.1, rawLogs ++ r.logs ++ next.2.2)
    else (client, [], [])

/-- `processPacket` (main.cpp lines 145–249) on one session.  `clients` is
the rest of the broker's session map as read by `broadcast`; the handler
never mutates any session other than the one being processed, so the map
is passed read-only.  Returns the updated session, the socket writes and
the log lines produced while draining the inbox. -/
def processPacket (cfg : Config) (clients : List (Int × ClientSession))
    (client : ClientSession) : ClientSession × List (Int × List Nat) × List LogEvent :=
  processPacketAux cfg clients client.inbox.length client

/-- The per-session read path of the server loop (main.cpp lines 344–362):
each network read appends the received chunk to the session's inbox and
then runs `processPacket`.  `feedAll` plays a list of chunk arrivals for
one session, concatenating the writes and logs of each tick. -/
def feedAll (cfg : Config) (clients : List (Int × ClientSession))
    (client : ClientSession) :
    List (List Nat) → ClientSession × List (Int × List Nat) × List LogEvent
  | [] => (client, [], [])
  | c :: cs =>
    let r1 := processPacket cfg clients { client with inbox := client.inbox ++ c }
    let r2 := feedAll cfg clients r1.1 cs
    (r2.1, r1.2.1 ++ r2.2.1, r1.2.2 ++ r2.2.2)

/-- `parseArgs` (main.cpp lines 251–275) over `argv[1..]`.  Any argument
outside the recognised set prints the usage line and exits with status 1,
modelled as `none`.  `std::stoi` aborting on a non-numeric argument is
modelled as `none` as well. -/
def parseArgs : List String → Config → Option Config
  | [], cfg => some cfg
  | "--port" :: v :: rest, cfg =>
    match v.toInt? with
    | some n => parseArgs rest { cfg with port := n }
    | none => none
  | "--max" :: v :: rest, cfg =>
    match v.toInt? with
    | some n => parseArgs rest { cfg with maxClients := n }
    | none => none
  | "--quiet" :: rest, cfg => parseArgs rest { cfg with quiet := true }
  | "--raw" :: rest, cfg => parseArgs rest { cfg with logPackets := true }
  | "--trace-sub" :: rest, cfg => parseArgs rest { cfg with traceSubscriptions := true }
  | "--no-trace-msg" :: rest, cfg => parseArgs rest { cfg with traceMessages := false }
  | "--delay" :: v :: rest, cfg =>
    match v.toInt? with
    | some n => parseArgs rest { cfg with artificialDelayMs := n }
    | none => none
  | _ :: _, _ => none

/-- `P` is exactly one complete MQTT frame: a header byte, a remaining
length that decodes, and a total size matching `P` exactly. -/
def singleCompleteFrame (P : List Nat) : Prop :=
  2 ≤ P.length ∧
    ∃ off rl, decodeRemainingLength P 1 = some (off, rl) ∧ P.length = off + rl

/-! ## Basic facts about the remaining-length codec -/

/-- A successful decode consumes at least one byte. -/
theorem decodeRLCore_consumed (l : List Nat) (c m len k n : Nat)
    (h : decodeRLCore l c m len = some (k, n)) : c < k := by
  induction l generalizing c m len with
  | nil => simp [decodeRLCore] at h
  | cons b rest ih =>
    simp only [decodeRLCore] at h
    split at h
    · simp only [Option.some.injEq, Prod.mk.injEq] at h
      omega
    · split at h
      · simp at h
      · have := ih (c + 1) (m * 128) _ h
        omega

/-- `decodeRLCore` looks only at the bytes it consumes: a decode of
`q ++ t` succeeds identically on `q` when it consumed only bytes of `q`,
and fails on `q` when it consumed further. -/
theorem decodeRLCore_split (q t : List Nat) (c m len k n : Nat)
    (h : decodeRLCore (q ++ t) c m len = some (k, n)) :
    (k ≤ c + q.length → decodeRLCore q c m len = some (k, n)) ∧
    (c + q.length < k → decodeRLCore q c m len = none) := by
  induction q generalizing c m len with
  | nil =>
    have hk := decodeRLCore_consumed _ _ _ _ _ _ h
    exact ⟨fun hle => absurd hle (by simp; omega), fun _ => rfl⟩
  | cons b q' ih =>
    rw [List.cons_append] at h
    simp only [decodeRLCore] at h ⊢
    split at h <;> rename_i hb
    · simp only [Option.some.injEq, Prod.mk.injEq] at h
      constructor
      · intro _
        rw [if_pos hb]
        simp [h.1, h.2]
      · intro hlt
        simp only [List.length_cons] at hlt
        exfalso
        omega
    · split at h <;> rename_i h4
      · simp at h
      · have hk := decodeRLCore_consumed _ _ _ _ _ _ h
        have ihh := ih (c + 1) (m * 128) _ h
        rw [if_neg hb, if_neg h4]
        constructor
        · intro hle
          simp only [List.length_cons] at hle
          exact ihh.1 (by omega)
        · intro hlt
          simp only [List.length_cons] at hlt
          exact ihh.2 (by omega)

/-- A decoded value from `l` is bounded via the running multiplier: each
byte contributes at most `127 * mult`, so `n + m ≤ len + m * 128 ^ |l|`. -/
theorem decodeRLCore_value_le (l : List Nat) (c m len k n : Nat)
    (h : decodeRLCore l c m len = some (k, n)) :
    n + m ≤ len + m * 128 ^ l.length := by
  induction l generalizing c m len with
  | nil => simp [decodeRLCore] at h
  | cons b rest ih =>
    simp only [decodeRLCore] at h
    have hb : b &&& 127 ≤ 127 := Nat.and_le_right
    have hpow : 1 ≤ 128 ^ rest.length := Nat.one_le_pow _ _ (by norm_num)
    have hlc : (128 : Nat) ^ (b :: rest).length = 128 * 128 ^ rest.length := by
      rw [List.length_cons, pow_succ]
      ring
    have h1 : (b &&& 127) * m ≤ 127 * m := Nat.mul_le_mul_right m hb
    split at h
    · obtain ⟨hk, hn⟩ : c + 1 = k ∧ len + (b &&& 127) * m = n := by simpa using h
      rw [hlc]
      have h2 : m * 128 ≤ m * (128 * 128 ^ rest.length) := by
        refine Nat.mul_le_mul_left m ?hle
        nlinarith
      linarith
    · split at h
      · simp at h
      · have hih := ih (c + 1) (m * 128) _ h
        rw [hlc]
        have hassoc : m * 128 * 128 ^ rest.length = m * (128 * 128 ^ rest.length) := by ring
        rw [hassoc] at hih
        linarith

/-- Successful `decodeRemainingLength` advances the offset. -/
theorem decodeRL_offset_lt {buf : List Nat} {o q n : Nat}
    (h : decodeRemainingLength buf o = some (q, n)) : o < q := by
  simp only [decodeRemainingLength, Option.map_eq_some'] at h
  obtain ⟨⟨k, v⟩, hc, he⟩ := h
  have := decodeRLCore_consumed _ _ _ _ _ _ hc
  simp only [Prod.mk.injEq] at he
  omega

/-- Decoding the remaining length of a frame prefix: if the full buffer
`P ++ T` decodes, then `P` alone decodes to the same result when all the
length bytes lie inside `P`, and fails otherwise. -/
theorem decodeRL_of_append (P T : List Nat) (off rl : Nat) (h1 : 1 ≤ P.length)
    (h : decodeRemainingLength (P ++ T) 1 = some (off, rl)) :
    (off ≤ P.length → decodeRemainingLength P 1 = some (off, rl)) ∧
    (P.length < off → decodeRemainingLength P 1 = none) := by
  have hdrop : (P ++ T).drop 1 = P.drop 1 ++ T := by
    rw [List.drop_append_eq_append_drop]
    simp [Nat.sub_eq_zero_of_le h1]
  simp only [decodeRemainingLength, hdrop, Option.map_eq_some'] at h
  obtain ⟨⟨k, v⟩, hc, he⟩ := h
  simp only [Prod.mk.injEq] at he
  obtain ⟨ho, hv⟩ := he
  have hsplit := decodeRLCore_split (P.drop 1) T 0 1 0 k v hc
  have hlen : (P.drop 1).length = P.length - 1 := by simp
  constructor
  · intro hle
    have hq := hsplit.1 (by omega)
    rw [List.drop_one] at hq
    simp [decodeRemainingLength, hq, ← ho, ← hv]
  · intro hlt
    have hq := hsplit.2 (by omega)
    rw [List.drop_one] at hq
    simp [decodeRemainingLength, hq]

/-! ## The dispatch loop: fuel irrelevance and unfolding lemmas -/

/-- The CONNECT case never stops the dispatch loop. -/
theorem handleConnect_halt (cfg : Config) (offset : Nat) (packet : List Nat)
    (client : ClientSession) :
    (handleConnect cfg offset packet client).halt = false := by
  simp only [handleConnect]
  split_ifs <;> rfl

/-- The PUBLISH case never stops the dispatch loop. -/
theorem handlePublish_halt (cfg : Config) (clients : List (Int × ClientSession))
    (header offset : Nat) (packet : List Nat) (client : ClientSession) :
    (handlePublish cfg clients header offset packet client).halt = false := by
  simp only [handlePublish]
  split_ifs <;> rfl

/-- The SUBSCRIBE case never stops the dispatch loop. -/
theorem handleSubscribe_halt (cfg : Config) (offset : Nat) (packet : List Nat)
    (client : ClientSession) :
    (handleSubscribe cfg offset packet client).halt = false := by
  simp only [handleSubscribe]
  split_ifs <;> rfl

/-- The handler halts only in the DISCONNECT case, where it has closed the
socket. -/
theorem handlePacket_halt_fd (cfg : Config) (clients : List (Int × ClientSession))
    (header offset : Nat) (packet : List Nat) (client : ClientSession)
    (h : (handlePacket cfg clients header offset packet client).halt = true) :
    (handlePacket cfg clients header offset packet client).client.fd = -1 := by
  unfold handlePacket at h ⊢
  by_cases h1 : header >>> 4 = 1
  · simp only [if_pos h1] at h
    rw [handleConnect_halt] at h
    exact absurd h (by simp)
  · simp only [if_neg h1] at h ⊢
    by_cases h3 : header >>> 4 = 3
    · simp only [if_pos h3] at h
      rw [handlePublish_halt] at h
      exact absurd h (by simp)
    · simp only [if_neg h3] at h ⊢
      by_cases h8 : header >>> 4 = 8
      · simp only [if_pos h8] at h
        rw [handleSubscribe_halt] at h
        exact absurd h (by simp)
      · simp only [if_neg h8] at h ⊢
        by_cases h12 : header >>> 4 = 12
        · simp only [if_pos h12] at h
          simp at h
        · simp only [if_neg h12] at h ⊢
          by_cases h14 : header >>> 4 = 14
          · simp only [if_pos h14]
          · simp only [if_neg h14] at h
            simp at h

/-- Any fuel at least the inbox length computes the same result: the loop
consumes at least two bytes per iteration. -/
theorem processPacketAux_fuel (cfg : Config) (clients : List (Int × ClientSession)) :
    ∀ f g : Nat, ∀ client : ClientSession,
      client.inbox.length ≤ f → client.inbox.length ≤ g →
      processPacketAux cfg clients f client = processPacketAux cfg clients g client := by
  intro f
  induction f with
  | zero =>
    intro g client hf hg
    have h0 : client.inbox.length = 0 := by omega
    cases g with
    | zero => rfl
    | succ g =>
      simp only [processPacketAux]
      rw [dif_neg (by omega)]
  | succ f ih =>
    intro g client hf hg
    cases g with
    | zero =>
      have h0 : client.inbox.length = 0 := by omega
      simp only [processPacketAux]
      rw [dif_neg (by omega)]
    | succ g =>
      simp only [processPacketAux]
      by_cases h2 : 2 ≤ client.inbox.length
      · rw [dif_pos h2, dif_pos h2]
        cases hdec : decodeRemainingLength client.inbox 1 with
        | none => rfl
        | some p =>
          obtain ⟨offset, remLen⟩ := p
          simp only
          by_cases hc : client.inbox.length < offset + remLen
          · rw [dif_pos hc, dif_pos hc]
          · rw [dif_neg hc, dif_neg hc]
            have hoff : 1 < offset := decodeRL_offset_lt hdec
            have hrest : (client.inbox.drop (offset + remLen)).length ≤ f ∧
                (client.inbox.drop (offset + remLen)).length ≤ g := by
              simp only [List.length_drop]
              omega
            split
            · rfl
            · rw [ih g _ (by simpa using hrest.1) (by simpa using hrest.2)]
      · rw [dif_neg h2, dif_neg h2]

/-- An empty (or one-byte) inbox is left untouched. -/
theorem processPacket_short (cfg : Config) (clients : List (Int × ClientSession))
    (client : ClientSession) (h : client.inbox.length < 2) :
    processPacket cfg clients client = (client, [], []) := by
  unfold processPacket
  cases hl : client.inbox.length with
  | zero => rfl
  | succ l =>
    simp only [processPacketAux]
    rw [dif_neg (by omega)]

/-- When the remaining length does not decode, `processPacket` stops and
the inbox is left untouched. -/
theorem processPacket_noDecode (cfg : Config) (clients : List (Int × ClientSession))
    (client : ClientSession) (h2 : 2 ≤ client.inbox.length)
    (hdec : decodeRemainingLength client.inbox 1 = none) :
    processPacket cfg clients client = (client, [], []) := by
  unfold processPacket
  obtain ⟨n, hn⟩ : ∃ n, client.inbox.length = n + 1 := ⟨client.inbox.length - 1, by omega⟩
  rw [hn]
  simp only [processPacketAux]
  rw [dif_pos (by omega), hdec]

/-- When the buffered bytes do not cover the whole frame, `processPacket`
stops and the inbox is left untouched. -/
theorem processPacket_incomplete (cfg : Config) (clients : List (Int × ClientSession))
    (client : ClientSession) (offset remLen : Nat) (h2 : 2 ≤ client.inbox.length)
    (hdec : decodeRemainingLength client.inbox 1 = some (offset, remLen))
    (hc : client.inbox.length < offset + remLen) :
    processPacket cfg clients client = (client, [], []) := by
  unfold processPacket
  obtain ⟨n, hn⟩ : ∃ n, client.inbox.length = n + 1 := ⟨client.inbox.length - 1, by omega⟩
  rw [hn]
  simp only [processPacketAux]
  rw [dif_pos (by omega), hdec]
  simp only
  rw [dif_pos (by omega)]

/-- One full iteration of the dispatch loop, phrased over `processPacket`
itself: with a complete frame buffered, the frame is split off, dispatched,
and unless the handler halts the loop continues on the remaining bytes. -/
theorem processPacket_step (cfg : Config) (clients : List (Int × ClientSession))
    (client : ClientSession) (offset remLen : Nat) (h2 : 2 ≤ client.inbox.length)
    (hdec : decodeRemainingLength client.inbox 1 = some (offset, remLen))
    (hc : offset + remLen ≤ client.inbox.length) :
    processPacket cfg clients client =
      (let header := client.inbox.getD 0 0
       let packet := client.inbox.take (offset + remLen)
       let rest := client.inbox.drop (offset + remLen)
       let rawLogs := if cfg.logPackets then [LogEvent.raw ((header >>> 4) &&& 15) packet] else []
       let r := handlePacket cfg clients header offset packet client
       let client1 := { r.client with inbox := rest }
       if r.halt then (client1, r.outs, rawLogs ++ r.logs)
       else
         let next := processPacket cfg clients client1
         (next.1, r.outs ++ next.2.1, rawLogs ++ r.logs ++ next.2.2)) := by
  conv_lhs => rw [processPacket]
  obtain ⟨n, hn⟩ : ∃ n, client.inbox.length = n + 1 := ⟨client.inbox.length - 1, by omega⟩
  rw [hn]
  simp only [processPacketAux]
  rw [dif_pos (by omega), hdec]
  simp only
  rw [dif_neg (by omega)]
  have hoff : 1 < offset := decodeRL_offset_lt hdec
  have hrest : (client.inbox.drop (offset + remLen)).length ≤ n := by
    simp only [List.length_drop]
    omega
  split
  · rfl
  · have := processPacketAux_fuel cfg clients n
      ((client.inbox.drop (offset + remLen)).length)
      { (handlePacket cfg clients (client.inbox.getD 0 0) offset
           (client.inbox.take (offset + remLen)) client).client with
        inbox := client.inbox.drop (offset + remLen) }
      (by simpa using hrest) (by simp)
    rw [this]
    rfl

/-- Processing an inbox that holds exactly one complete frame: the frame
is dispatched, the inbox comes back empty, and the writes and logs are the
handler's (plus the optional raw log line). -/
theorem processPacket_singleFrame (cfg : Config) (clients : List (Int × ClientSession))
    (client : ClientSession) (off rl : Nat) (h2 : 2 ≤ client.inbox.length)
    (hdec : decodeRemainingLength client.inbox 1 = some (off, rl))
    (htot : client.inbox.length = off + rl) :
    processPacket cfg clients client =
      (let header := client.inbox.getD 0 0
       let rawLogs := if cfg.logPackets then [LogEvent.raw ((header >>> 4) &&& 15) client.inbox] else []
       let r := handlePacket cfg clients header off client.inbox client
       ({ r.client with inbox := [] }, r.outs, rawLogs ++ r.logs)) := by
  rw [processPacket_step cfg clients client off rl h2 hdec htot.ge]
  rw [← htot, List.take_length, List.drop_length]
  cases hh : (handlePacket cfg clients (client.inbox.getD 0 0) off client.inbox client).halt with
  | true => simp only [hh, if_true]
  | false =>
    simp only [hh, if_false, Bool.false_eq_true]
    rw [processPacket_short cfg clients _ (by simp)]
    simp

/-- A proper leading part of a single complete frame is left untouched by
`processPacket`: either too few bytes, or an incomplete remaining length,
or a frame longer than what is buffered. -/
theorem processPacket_properPart (cfg : Config) (clients : List (Int × ClientSession))
    (client : ClientSession) (T P : List Nat) (hP : singleCompleteFrame P)
    (hQT : client.inbox ++ T = P) (hT : T ≠ []) :
    processPacket cfg clients client = (client, [], []) := by
  obtain ⟨h2, off, rl, hdec, htot⟩ := hP
  have hlt : client.inbox.length < P.length := by
    rw [← hQT]
    simp only [List.length_append]
    have : 0 < T.length := List.length_pos.mpr hT
    omega
  by_cases hq2 : client.inbox.length < 2
  · exact processPacket_short cfg clients client hq2
  · push_neg at hq2
    have h1 : 1 ≤ client.inbox.length := by omega
    have hsplit := decodeRL_of_append client.inbox T off rl h1 (by rw [hQT]; exact hdec)
    by_cases hoff : off ≤ client.inbox.length
    · exact processPacket_incomplete cfg clients client off rl hq2 (hsplit.1 hoff) (by omega)
    · exact processPacket_noDecode cfg clients client hq2 (hsplit.2 (by omega))

/-- Five continuation bytes in a row make the decoder fail (the
`consumed > 4` check at main.cpp line 70 fires while reading the fifth
byte), no matter what follows. -/
theorem decodeRLCore_cont5 (b0 b1 b2 b3 b4 : Nat) (t : List Nat)
    (h0 : b0 &&& 128 ≠ 0) (h1 : b1 &&& 128 ≠ 0) (h2 : b2 &&& 128 ≠ 0)
    (h3 : b3 &&& 128 ≠ 0) (h4 : b4 &&& 128 ≠ 0) :
    decodeRLCore (b0 :: b1 :: b2 :: b3 :: b4 :: t) 0 1 0 = none := by
  simp [decodeRLCore, beq_eq_false_iff_ne.mpr h0, beq_eq_false_iff_ne.mpr h1,
    beq_eq_false_iff_ne.mpr h2, beq_eq_false_iff_ne.mpr h3, beq_eq_false_iff_ne.mpr h4]

/-- After the dispatch loop runs with enough fuel, a surviving session
(`fd` not closed) holds no complete frame: any decodable remaining length
at the head of the leftover inbox demands more bytes than are buffered. -/
theorem processPacketAux_no_complete (cfg : Config) (clients : List (Int × ClientSession)) :
    ∀ (fuel : Nat) (client : ClientSession), client.inbox.length ≤ fuel →
      ∀ off rl, 0 ≤ (processPacketAux cfg clients fuel client).1.fd →
        decodeRemainingLength (processPacketAux cfg clients fuel client).1.inbox 1 =
          some (off, rl) →
        (processPacketAux cfg clients fuel client).1.inbox.length < off + rl := by
  intro fuel
  induction fuel with
  | zero =>
    intro client hf off rl hfd hdec
    have h0 : client.inbox = [] := List.length_eq_zero.mp (by omega)
    simp only [processPacketAux] at hdec
    rw [h0] at hdec
    simp [decodeRemainingLength, decodeRLCore] at hdec
  | succ fuel ih =>
    intro client hf off rl hfd hdec
    by_cases h2 : 2 ≤ client.inbox.length
    · simp only [processPacketAux, dif_pos h2] at hfd hdec ⊢
      cases hd : decodeRemainingLength client.inbox 1 with
      | none =>
        simp only [hd] at hfd hdec ⊢
        simp at hdec
      | some p =>
        obtain ⟨o, r⟩ := p
        simp only [hd] at hfd hdec ⊢
        by_cases hc : client.inbox.length < o + r
        · rw [dif_pos hc] at hfd hdec ⊢
          simp only at hdec ⊢
          rw [hd] at hdec
          simp only [Option.some.injEq, Prod.mk.injEq] at hdec
          omega
        · rw [dif_neg hc] at hfd hdec ⊢
          cases hh : (handlePacket cfg clients (client.inbox.getD 0 0) o
              (client.inbox.take (o + r)) client).halt with
          | true =>
            have hfde := handlePacket_halt_fd cfg clients (client.inbox.getD 0 0) o
              (client.inbox.take (o + r)) client hh
            rw [hh, if_pos rfl, hfde] at hfd
            norm_num at hfd
          | false =>
            simp only [hh, Bool.false_eq_true, if_false] at hfd hdec ⊢
            have hoff : 1 < o := decodeRL_offset_lt hd
            have hlen : ({ (handlePacket cfg clients (client.inbox.getD 0 0) o
                (client.inbox.take (o + r)) client).client with
                  inbox := client.inbox.drop (o + r) } : ClientSession).inbox.length ≤ fuel := by
              simp only [List.length_drop]
              omega
            exact ih _ hlen off rl hfd hdec
    · simp only [processPacketAux, dif_neg h2] at hfd hdec ⊢
      have := decodeRL_offset_lt hdec
      omega

/-- The outputs of `broadcast`: one `buildPublish` frame per client other
than the sender whose subscription set contains the topic, in map order. -/
theorem broadcast_outs (topic payload : List Nat) (clients : List (Int × ClientSession))
    (senderFd : Int) (verbose : Bool) :
    (broadcast topic payload clients senderFd verbose).1 =
      (clients.filter
          (fun q => decide (q.1 ≠ senderFd ∧ topic ∈ q.2.subscriptions))).map
        (fun q => (q.1, buildPublish topic payload)) := by
  induction clients with
  | nil => rfl
  | cons p rest ih =>
    obtain ⟨k, s⟩ := p
    simp only [broadcast, List.filter_cons]
    by_cases hk : k = senderFd
    · simp [hk, ih]
    · by_cases hs : topic ∈ s.subscriptions
      · simp [hk, hs, ih]
      · simp [hk, hs, ih]





/-- One unfolding of `feedAll`: read a chunk, process, continue. -/
theorem feedAll_cons (cfg : Config) (clients : List (Int × ClientSession))
    (fd : Int) (cid : List Nat) (subs : List (List Nat)) (q c : List Nat)
    (cs : List (List Nat)) :
    feedAll cfg clients ⟨fd, cid, subs, q⟩ (c :: cs) =
      (let r1 := processPacket cfg clients ⟨fd, cid, subs, q ++ c⟩
       let r2 := feedAll cfg clients r1.1 cs
       (r2.1, r1.2.1 ++ r2.2.1, r1.2.2 ++ r2.2.2)) := rfl

/-- Fragmentation invariance, one session: starting from an empty inbox,
feeding one complete frame `P` in any partition into nonempty chunks gives
the same final session, writes and logs as feeding `P` whole.  The
intermediate reads buffer proper parts of the frame and extract nothing;
the final read completes the frame. -/
theorem feedAll_singleFrame (cfg : Config) (clients : List (Int × ClientSession))
    (P : List Nat) (hP : singleCompleteFrame P) :
    ∀ (chunks : List (List Nat)) (fd : Int) (cid : List Nat) (subs : List (List Nat))
      (q : List Nat), chunks ≠ [] → (∀ c ∈ chunks, c ≠ []) → q ++ chunks.flatten = P →
      feedAll cfg clients ⟨fd, cid, subs, q⟩ chunks =
        processPacket cfg clients ⟨fd, cid, subs, P⟩ := by
  intro chunks
  induction chunks with
  | nil =>
    intro fd cid subs q hne _ _
    exact absurd rfl hne
  | cons c cs ih =>
    intro fd cid subs q hne hcne hjoin
    cases cs with
    | nil =>
      have hqc : q ++ c = P := by simpa using hjoin
      simp only [feedAll]
      rw [hqc]
      simp
    | cons c2 cs2 =>
      have hc2 : c2 ≠ [] := hcne c2 (by simp)
      have hTne : (c2 :: cs2).flatten ≠ [] := by
        intro h
        have hnil : c2 = [] ∧ ∀ l ∈ cs2, l = [] := by simpa using h
        exact hc2 hnil.1
      have hjoin2 : (q ++ c) ++ (c2 :: cs2).flatten = P := by
        simpa [List.append_assoc] using hjoin
      have hnoop := processPacket_properPart cfg clients ⟨fd, cid, subs, q ++ c⟩
        ((c2 :: cs2).flatten) P hP hjoin2 hTne
      have hcne2 : ∀ x ∈ c2 :: cs2, x ≠ [] := fun x hx => hcne x (List.mem_cons_of_mem _ hx)
      have hih := ih fd cid subs (q ++ c) (by simp) hcne2 hjoin2
      rw [feedAll_cons, hnoop]
      simp [hih]

/-- The writes of `broadcast` never target the sender's fd (the
`pair.first == senderFd` skip at main.cpp line 133). -/
theorem broadcast_ne_sender (topic payload : List Nat)
    (clients : List (Int × ClientSession)) (senderFd : Int) (verbose : Bool) :
    ∀ out ∈ (broadcast topic payload clients senderFd verbose).1, out.1 ≠ senderFd := by
  intro out hmem
  rw [broadcast_outs] at hmem
  simp only [List.mem_map, List.mem_filter, decide_eq_true_eq] at hmem
  obtain ⟨q, ⟨hq, hne, hsub⟩, hout⟩ := hmem
  rw [← hout]
  exact hne




/-! ## The claims -/

/-- C2: the spec says a Remaining Length decode must reject any fifth
length byte (continuation bit still set after 4 bytes).  The code is
wrong: the `consumed > 4` guard at main.cpp line 70 runs after the
continuation-bit test, so a fifth byte whose continuation bit is clear is
accepted — `FF FF FF FF 01` (first four bytes all with the continuation
bit set) decodes to 536870911 instead of failing.  Five continuation
bytes are still rejected. -/
theorem c2_decoder_accepts_fifth_byte :
    (0xFF &&& 128 ≠ 0) ∧
    decodeRemainingLength [0xFF, 0xFF, 0xFF, 0xFF, 0x01] 0 = some (5, 536870911) ∧
    decodeRemainingLength [0xFF, 0xFF, 0xFF, 0xFF, 0xFF] 0 = none := by
  decide

/-- Test values of the spec's Remaining Length round-trip law. -/
def rlTestValues : List Nat :=
  [0, 127, 128, 16383, 16384, 2097151, 2097152, 268435455]

/-- C5: for every test value `n`, encoding then decoding yields `n` back
consuming exactly the produced bytes (at most 4 of them), and no 1–4 byte
slice decodes to a value above 268435455. -/
theorem c5_remaining_length_round_trip :
    (∀ n ∈ rlTestValues,
        decodeRemainingLength (encodeRemainingLength n) 0 =
          some ((encodeRemainingLength n).length, n) ∧
        (encodeRemainingLength n).length ≤ 4) ∧
    (∀ (bs : List Nat) (off v : Nat), bs.length ≤ 4 →
        decodeRemainingLength bs 0 = some (off, v) → v ≤ 268435455) := by
  constructor
  · decide
  · intro bs off v hlen hdec
    simp only [decodeRemainingLength, List.drop_zero, Option.map_eq_some'] at hdec
    obtain ⟨⟨k, n⟩, hc, he⟩ := hdec
    simp only [Prod.mk.injEq] at he
    obtain ⟨-, hv⟩ := he
    have hval := decodeRLCore_value_le bs 0 1 0 k n hc
    have hpow : (128 : Nat) ^ bs.length ≤ 128 ^ 4 := Nat.pow_le_pow_right (by norm_num) hlen
    have h4 : (128 : Nat) ^ 4 = 268435456 := by norm_num
    rw [h4] at hpow
    rw [← hv]
    linarith

/-- C5 witness: the round trip at 268435455 and the bound at the largest
4-byte encoding. -/
theorem c5_witness :
    (268435455 ∈ rlTestValues ∧
      decodeRemainingLength (encodeRemainingLength 268435455) 0 =
        some ((encodeRemainingLength 268435455).length, 268435455) ∧
      (encodeRemainingLength 268435455).length ≤ 4) ∧
    (([0xFF, 0xFF, 0xFF, 0x7F] : List Nat).length ≤ 4 ∧
      decodeRemainingLength [0xFF, 0xFF, 0xFF, 0x7F] 0 = some (4, 268435455) ∧
      268435455 ≤ 268435455) :=
  ⟨⟨by decide, c5_remaining_length_round_trip.1 268435455 (by decide)⟩,
   ⟨by decide, by decide,
    c5_remaining_length_round_trip.2 [0xFF, 0xFF, 0xFF, 0x7F] 4 268435455
      (by decide) (by decide)⟩⟩

set_option maxHeartbeats 1000000 in
/-- C7: `broadcast` never delivers to the sender's own fd — the skip at
main.cpp line 133 is unconditional, the `Config` of the code has no
reflection flag at all, so under every representable configuration (the
default included) the publisher receives nothing from its own PUBLISH even
when it is subscribed to the topic; the second conjunct states this at the
`processPacket` level for a QoS-0 PUBLISH to topic "test". -/
theorem c7_no_self_delivery :
    (∀ (topic payload : List Nat) (clients : List (Int × ClientSession)) (senderFd : Int)
        (verbose : Bool) (out : Int × List Nat),
        out ∈ (broadcast topic payload clients senderFd verbose).1 → out.1 ≠ senderFd) ∧
    (∀ (cfg : Config) (clients : List (Int × ClientSession)) (fd : Int)
        (cid : List Nat) (subs : List (List Nat)) (out : Int × List Nat),
        out ∈ (processPacket cfg clients
            ⟨fd, cid, subs, [0x30, 0x0B, 0x00, 0x04, 0x74, 0x65, 0x73, 0x74,
              0x68, 0x65, 0x6C, 0x6C, 0x6F]⟩).2.1 →
          out.1 ≠ fd) := by
  constructor
  · intro topic payload clients senderFd verbose out hmem
    exact broadcast_ne_sender topic payload clients senderFd verbose out hmem
  · intro cfg clients fd cid subs out hmem
    have heq : processPacket cfg clients
        ⟨fd, cid, subs, [0x30, 0x0B, 0x00, 0x04, 0x74, 0x65, 0x73, 0x74,
          0x68, 0x65, 0x6C, 0x6C, 0x6F]⟩ =
        (⟨fd, cid, subs, []⟩,
         (broadcast [0x74, 0x65, 0x73, 0x74] [0x68, 0x65, 0x6C, 0x6C, 0x6F]
            clients fd cfg.traceMessages).1,
         (if cfg.logPackets then
            [LogEvent.raw 3 [0x30, 0x0B, 0x00, 0x04, 0x74, 0x65, 0x73, 0x74,
              0x68, 0x65, 0x6C, 0x6C, 0x6F]] else []) ++
           ((if cfg.traceMessages && !cfg.quiet then
               [LogEvent.publish cid [0x74, 0x65, 0x73, 0x74] [0x68, 0x65, 0x6C, 0x6C, 0x6F]]
             else []) ++
            (broadcast [0x74, 0x65, 0x73, 0x74] [0x68, 0x65, 0x6C, 0x6C, 0x6F]
               clients fd cfg.traceMessages).2)) := by
      rw [processPacket_singleFrame cfg clients
        ⟨fd, cid, subs, [0x30, 0x0B, 0x00, 0x04, 0x74, 0x65, 0x73, 0x74,
          0x68, 0x65, 0x6C, 0x6C, 0x6F]⟩ 2 11 (by simp) rfl rfl]
      simp only [show ((⟨fd, cid, subs, [0x30, 0x0B, 0x00, 0x04, 0x74, 0x65, 0x73, 0x74,
          0x68, 0x65, 0x6C, 0x6C, 0x6F]⟩ : ClientSession).inbox.getD 0 0) = 0x30 from rfl,
        show ((⟨fd, cid, subs, [0x30, 0x0B, 0x00, 0x04, 0x74, 0x65, 0x73, 0x74,
          0x68, 0x65, 0x6C, 0x6C, 0x6F]⟩ : ClientSession).inbox) =
          [0x30, 0x0B, 0x00, 0x04, 0x74, 0x65, 0x73, 0x74, 0x68, 0x65, 0x6C, 0x6C, 0x6F] from rfl]
      with_unfolding_all rfl
    rw [heq] at hmem
    exact broadcast_ne_sender _ _ clients fd cfg.traceMessages out hmem

/-- C7 witness: a publisher on fd 1 that is itself subscribed to "test"
is skipped by its own broadcast while a second subscribed session on fd 2
is delivered to. -/
theorem c7_witness :
    ((2 : Int), buildPublish [0x74, 0x65, 0x73, 0x74] [0x68, 0x65, 0x6C, 0x6C, 0x6F]) ∈
      (broadcast [0x74, 0x65, 0x73, 0x74] [0x68, 0x65, 0x6C, 0x6C, 0x6F]
        [(1, ⟨1, [], [[0x74, 0x65, 0x73, 0x74]], []⟩),
         (2, ⟨2, [], [[0x74, 0x65, 0x73, 0x74]], []⟩)] 1 true).1 ∧
    ((2 : Int), buildPublish [0x74, 0x65, 0x73, 0x74] [0x68, 0x65, 0x6C, 0x6C, 0x6F]).1 ≠ 1 :=
  ⟨by decide,
   c7_no_self_delivery.1 [0x74, 0x65, 0x73, 0x74] [0x68, 0x65, 0x6C, 0x6C, 0x6F]
     [(1, ⟨1, [], [[0x74, 0x65, 0x73, 0x74]], []⟩),
      (2, ⟨2, [], [[0x74, 0x65, 0x73, 0x74]], []⟩)] 1 true
     (2, buildPublish [0x74, 0x65, 0x73, 0x74] [0x68, 0x65, 0x6C, 0x6C, 0x6F]) (by decide)⟩

set_option maxHeartbeats 1000000 in
/-- C10: when a DISCONNECT frame (`E0 00`) is extracted, the dispatch
loop stops at once: the socket is closed (`fd = -1`, after which the
server loop removes the session), nothing is written, and whatever bytes
follow the DISCONNECT — even a complete PUBLISH — stay in the inbox,
never decoded or dispatched. -/
theorem c10_disconnect_stops_processing (cfg : Config)
    (clients : List (Int × ClientSession)) (fd : Int) (cid : List Nat)
    (subs : List (List Nat)) (rest : List Nat) :
    processPacket cfg clients ⟨fd, cid, subs, 0xE0 :: 0x00 :: rest⟩ =
      (⟨-1, cid, subs, rest⟩, [],
       (if cfg.logPackets then [LogEvent.raw 14 [0xE0, 0x00]] else []) ++
         (if cfg.quiet then [] else [LogEvent.disconnect cid])) := by
  rw [processPacket_step cfg clients ⟨fd, cid, subs, 0xE0 :: 0x00 :: rest⟩ 2 0
    (by simp) rfl (by simp)]
  simp only [show ((⟨fd, cid, subs, 0xE0 :: 0x00 :: rest⟩ : ClientSession).inbox.getD 0 0)
      = 0xE0 from rfl,
    show ((⟨fd, cid, subs, 0xE0 :: 0x00 :: rest⟩ : ClientSession).inbox.take (2 + 0))
      = [0xE0, 0x00] from rfl,
    show ((⟨fd, cid, subs, 0xE0 :: 0x00 :: rest⟩ : ClientSession).inbox.drop (2 + 0))
      = rest from rfl]
  with_unfolding_all rfl

/-- C4 counterexample: the code has no disconnect-on-error option —
`parseArgs` rejects such a flag with the usage error (exit 1) — and a
Connected session that sends the reserved fixed header `00 00` is *not*
closed: under the default configuration its fd is untouched and the only
effect is an unhandled-type warning. -/
theorem c4_counterexample :
    parseArgs ["--disconnect-on-error"] defaultConfig = none ∧
    processPacket defaultConfig [] ⟨5, [0x61], [], [0x00, 0x00]⟩ =
      (⟨5, [0x61], [], []⟩, [], [LogEvent.warnUnhandled 0]) := by
  decide

set_option maxHeartbeats 1000000 in
/-- C4 amended: under every configuration a session that sends the
reserved fixed header `00 00` keeps its socket: the frame is consumed,
nothing is written, an unhandled-packet-type warning is logged (unless
quiet), and the session (fd included) is otherwise unchanged; no other
session is touched (`processPacket` only reads `clients`). -/
theorem c4_amended_reserved_type_keeps_session (cfg : Config)
    (clients : List (Int × ClientSession)) (fd : Int) (cid : List Nat)
    (subs : List (List Nat)) :
    processPacket cfg clients ⟨fd, cid, subs, [0x00, 0x00]⟩ =
      (⟨fd, cid, subs, []⟩, [],
       (if cfg.logPackets then [LogEvent.raw 0 [0x00, 0x00]] else []) ++
         (if cfg.quiet then [] else [LogEvent.warnUnhandled 0])) := by
  rw [processPacket_singleFrame cfg clients ⟨fd, cid, subs, [0x00, 0x00]⟩ 2 0
    (by simp) rfl rfl]
  simp only [show ((⟨fd, cid, subs, [0x00, 0x00]⟩ : ClientSession).inbox.getD 0 0) = 0 from rfl,
    show ((⟨fd, cid, subs, [0x00, 0x00]⟩ : ClientSession).inbox) = [0x00, 0x00] from rfl]
  with_unfolding_all rfl


/-- C1 counterexample: a SUBSCRIBE with two topic filters ("a" and "b",
packet id 1) gets the fixed 5-byte SUBACK `90 03 00 01 00` with a single
granted-QoS byte — not the 6-byte SUBACK with two grant bytes the claim
demands for k = 2 (both topics are still added to the subscription set). -/
theorem c1_counterexample :
    processPacket defaultConfig []
        ⟨7, [], [], [0x82, 0x0A, 0x00, 0x01, 0x00, 0x01, 0x61, 0x00, 0x00, 0x01, 0x62, 0x00]⟩ =
      (⟨7, [], [[0x61], [0x62]], []⟩, [(7, [0x90, 0x03, 0x00, 0x01, 0x00])], []) ∧
    (processPacket defaultConfig []
        ⟨7, [], [], [0x82, 0x0A, 0x00, 0x01, 0x00, 0x01, 0x61, 0x00, 0x00, 0x01, 0x62, 0x00]⟩).2.1 ≠
      [(7, [0x90, 0x04, 0x00, 0x01, 0x00, 0x00])] := by
  decide

/-- C1 amended: for every complete SUBSCRIBE frame (type 8) whose packet
id is readable, the broker answers with exactly one SUBACK of the fixed
shape `90 03 PH PL 00` — a single granted-QoS byte `0x00` regardless of
how many topic filters the frame carries (`sendSuback`, main.cpp lines
106–109, always emits 5 bytes). -/
theorem c1_amended_suback_one_grant (cfg : Config) (clients : List (Int × ClientSession))
    (client : ClientSession) (off rl : Nat)
    (h2 : 2 ≤ client.inbox.length)
    (hdec : decodeRemainingLength client.inbox 1 = some (off, rl))
    (htot : client.inbox.length = off + rl)
    (htype : client.inbox.getD 0 0 >>> 4 = 8)
    (hpid : off + 2 ≤ client.inbox.length) :
    ∃ hi lo, (processPacket cfg clients client).2.1 =
      [(client.fd, [0x90, 0x03, hi, lo, 0x00])] := by
  rw [processPacket_singleFrame cfg clients client off rl h2 hdec htot]
  simp only [handlePacket, htype]
  norm_num
  simp only [handleSubscribe]
  rw [if_neg (show ¬(off + 2 > client.inbox.length) by omega)]
  exact ⟨_, _, rfl⟩

/-- C1 witness: the amended claim at the two-topic SUBSCRIBE of the
counterexample. -/
theorem c1_amended_witness :
    ∃ hi lo, (processPacket defaultConfig []
        ⟨7, [], [], [0x82, 0x0A, 0x00, 0x01, 0x00, 0x01, 0x61, 0x00, 0x00, 0x01, 0x62, 0x00]⟩).2.1 =
      [((7 : Int), [0x90, 0x03, hi, lo, 0x00])] :=
  c1_amended_suback_one_grant defaultConfig []
    ⟨7, [], [], [0x82, 0x0A, 0x00, 0x01, 0x00, 0x01, 0x61, 0x00, 0x00, 0x01, 0x62, 0x00]⟩ 2 10
    (by simp) rfl rfl rfl (by norm_num)

/-- C3 counterexample: a packet whose Remaining Length is malformed (five
continuation bytes) followed by a complete PINGREQ: `processPacket` stops
at once (the `return` at main.cpp line 150), leaving all bytes — the
malformed packet and the PINGREQ behind it — in the inbox, with no
warning logged and no response sent.  The claim said the broker logs a
warning, discards the packet bytes, and continues with later frames. -/
theorem c3_counterexample :
    processPacket defaultConfig []
        ⟨1, [], [], [0x30, 0x80, 0x80, 0x80, 0x80, 0x80, 0xC0, 0x00]⟩ =
      (⟨1, [], [], [0x30, 0x80, 0x80, 0x80, 0x80, 0x80, 0xC0, 0x00]⟩, [], []) := by
  decide

/-- C3 amended: (1) a frame whose Remaining Length is malformed — five
continuation bytes — freezes the session's inbox: nothing is consumed,
written or logged, and (2) the same bytes with anything appended stay
frozen, so later frames are blocked forever; (3) a complete frame whose
body is truncated (a CONNECT `10 02 00 05` whose variable header overruns
the packet) is silently discarded and processing continues with the
remaining bytes (no warning: the `break`s in `processPacket` log
nothing). -/
theorem c3_amended_malformed_handling (cfg : Config)
    (clients : List (Int × ClientSession)) (fd : Int) (cid : List Nat)
    (subs : List (List Nat)) (h b0 b1 b2 b3 b4 : Nat) (tail extra : List Nat)
    (hb0 : b0 &&& 128 ≠ 0) (hb1 : b1 &&& 128 ≠ 0) (hb2 : b2 &&& 128 ≠ 0)
    (hb3 : b3 &&& 128 ≠ 0) (hb4 : b4 &&& 128 ≠ 0) (hlp : cfg.logPackets = false) :
    (processPacket cfg clients ⟨fd, cid, subs, h :: b0 :: b1 :: b2 :: b3 :: b4 :: tail⟩ =
        (⟨fd, cid, subs, h :: b0 :: b1 :: b2 :: b3 :: b4 :: tail⟩, [], [])) ∧
    (processPacket cfg clients
        ⟨fd, cid, subs, (h :: b0 :: b1 :: b2 :: b3 :: b4 :: tail) ++ extra⟩ =
        (⟨fd, cid, subs, (h :: b0 :: b1 :: b2 :: b3 :: b4 :: tail) ++ extra⟩, [], [])) ∧
    (processPacket cfg clients ⟨fd, cid, subs, [0x10, 0x02, 0x00, 0x05] ++ extra⟩ =
        processPacket cfg clients ⟨fd, cid, subs, extra⟩) := by
  refine ⟨?p1, ?p2, ?p3⟩
  case p1 =>
    have hd1 : decodeRemainingLength (h :: b0 :: b1 :: b2 :: b3 :: b4 :: tail) 1 = none := by
      unfold decodeRemainingLength
      rw [show (h :: b0 :: b1 :: b2 :: b3 :: b4 :: tail).drop 1 =
        b0 :: b1 :: b2 :: b3 :: b4 :: tail from rfl]
      rw [decodeRLCore_cont5 b0 b1 b2 b3 b4 tail hb0 hb1 hb2 hb3 hb4]
      rfl
    exact processPacket_noDecode cfg clients _ (by simp) hd1
  case p2 =>
    have hd2 : decodeRemainingLength ((h :: b0 :: b1 :: b2 :: b3 :: b4 :: tail) ++ extra) 1 =
        none := by
      unfold decodeRemainingLength
      rw [show ((h :: b0 :: b1 :: b2 :: b3 :: b4 :: tail) ++ extra).drop 1 =
        b0 :: b1 :: b2 :: b3 :: b4 :: (tail ++ extra) from rfl]
      rw [decodeRLCore_cont5 b0 b1 b2 b3 b4 (tail ++ extra) hb0 hb1 hb2 hb3 hb4]
      rfl
    exact processPacket_noDecode cfg clients _ (by simp) hd2
  case p3 =>
    rw [processPacket_step cfg clients ⟨fd, cid, subs, [0x10, 0x02, 0x00, 0x05] ++ extra⟩ 2 2
      (by simp) (by with_unfolding_all rfl) (by simp)]
    simp only [hlp,
      show ((⟨fd, cid, subs, [0x10, 0x02, 0x00, 0x05] ++ extra⟩ : ClientSession).inbox.getD 0 0)
        = 0x10 from rfl,
      show ((⟨fd, cid, subs, [0x10, 0x02, 0x00, 0x05] ++ extra⟩ : ClientSession).inbox.take (2 + 2))
        = [0x10, 0x02, 0x00, 0x05] from rfl,
      show ((⟨fd, cid, subs, [0x10, 0x02, 0x00, 0x05] ++ extra⟩ : ClientSession).inbox.drop (2 + 2))
        = extra from rfl]
    with_unfolding_all rfl

/-- C3 witness: the amended claim at the counterexample bytes — malformed
Remaining Length `30 80 80 80 80 80` alone, then with a PINGREQ appended,
then the truncated CONNECT `10 02 00 05` followed by a PINGREQ. -/
theorem c3_amended_witness :
    (processPacket defaultConfig [] ⟨1, [], [], [0x30, 0x80, 0x80, 0x80, 0x80, 0x80]⟩ =
      (⟨1, [], [], [0x30, 0x80, 0x80, 0x80, 0x80, 0x80]⟩, [], [])) ∧
    (processPacket defaultConfig []
        ⟨1, [], [], [0x30, 0x80, 0x80, 0x80, 0x80, 0x80] ++ [0xC0, 0x00]⟩ =
      (⟨1, [], [], [0x30, 0x80, 0x80, 0x80, 0x80, 0x80] ++ [0xC0, 0x00]⟩, [], [])) ∧
    (processPacket defaultConfig [] ⟨1, [], [], [0x10, 0x02, 0x00, 0x05] ++ [0xC0, 0x00]⟩ =
      processPacket defaultConfig [] ⟨1, [], [], [0xC0, 0x00]⟩) :=
  c3_amended_malformed_handling defaultConfig [] 1 [] [] 0x30 0x80 0x80 0x80 0x80 0x80 []
    [0xC0, 0x00] (by decide) (by decide) (by decide) (by decide) (by decide) rfl

set_option maxHeartbeats 1000000 in
/-- C6: processing the complete QoS-1 PUBLISH
`32 0D 00 04 74 65 73 74 00 2A 68 65 6C 6C 6F` (topic "test", packet id
42, payload "hello") sends exactly the PUBACK `40 02 00 2A` to the
publisher and a QoS-0 PUBLISH `30 0B 00 04 74 65 73 74 68 65 6C 6C 6F`
(first byte `0x30`, same topic and payload) to every other session
subscribed to "test", in map order; the frame is consumed and the
publisher's session state is otherwise unchanged. -/
theorem c6_publish_qos1_puback_and_fanout (cfg : Config)
    (clients : List (Int × ClientSession)) (fd : Int) (cid : List Nat)
    (subs : List (List Nat)) :
    (processPacket cfg clients ⟨fd, cid, subs,
        [0x32, 0x0D, 0x00, 0x04, 0x74, 0x65, 0x73, 0x74, 0x00, 0x2A,
         0x68, 0x65, 0x6C, 0x6C, 0x6F]⟩).1 = ⟨fd, cid, subs, []⟩ ∧
    (processPacket cfg clients ⟨fd, cid, subs,
        [0x32, 0x0D, 0x00, 0x04, 0x74, 0x65, 0x73, 0x74, 0x00, 0x2A,
         0x68, 0x65, 0x6C, 0x6C, 0x6F]⟩).2.1 =
      (fd, [0x40, 0x02, 0x00, 0x2A]) ::
        (clients.filter
            (fun q => decide (q.1 ≠ fd ∧ [0x74, 0x65, 0x73, 0x74] ∈ q.2.subscriptions))).map
          (fun q => (q.1, [0x30, 0x0B, 0x00, 0x04, 0x74, 0x65, 0x73, 0x74,
            0x68, 0x65, 0x6C, 0x6C, 0x6F])) := by
  have heq : processPacket cfg clients ⟨fd, cid, subs,
      [0x32, 0x0D, 0x00, 0x04, 0x74, 0x65, 0x73, 0x74, 0x00, 0x2A,
       0x68, 0x65, 0x6C, 0x6C, 0x6F]⟩ =
      (⟨fd, cid, subs, []⟩,
       (fd, [0x40, 0x02, 0x00, 0x2A]) ::
         (broadcast [0x74, 0x65, 0x73, 0x74] [0x68, 0x65, 0x6C, 0x6C, 0x6F]
            clients fd cfg.traceMessages).1,
       (if cfg.logPackets then
          [LogEvent.raw 3 [0x32, 0x0D, 0x00, 0x04, 0x74, 0x65, 0x73, 0x74, 0x00, 0x2A,
            0x68, 0x65, 0x6C, 0x6C, 0x6F]] else []) ++
         ((if cfg.traceMessages && !cfg.quiet then
             [LogEvent.publish cid [0x74, 0x65, 0x73, 0x74] [0x68, 0x65, 0x6C, 0x6C, 0x6F]]
           else []) ++
          (broadcast [0x74, 0x65, 0x73, 0x74] [0x68, 0x65, 0x6C, 0x6C, 0x6F]
             clients fd cfg.traceMessages).2)) := by
    rw [processPacket_singleFrame cfg clients ⟨fd, cid, subs,
      [0x32, 0x0D, 0x00, 0x04, 0x74, 0x65, 0x73, 0x74, 0x00, 0x2A,
       0x68, 0x65, 0x6C, 0x6C, 0x6F]⟩ 2 13 (by simp) rfl rfl]
    simp only [show ((⟨fd, cid, subs, [0x32, 0x0D, 0x00, 0x04, 0x74, 0x65, 0x73, 0x74, 0x00, 0x2A,
        0x68, 0x65, 0x6C, 0x6C, 0x6F]⟩ : ClientSession).inbox.getD 0 0) = 0x32 from rfl,
      show ((⟨fd, cid, subs, [0x32, 0x0D, 0x00, 0x04, 0x74, 0x65, 0x73, 0x74, 0x00, 0x2A,
        0x68, 0x65, 0x6C, 0x6C, 0x6F]⟩ : ClientSession).inbox) =
        [0x32, 0x0D, 0x00, 0x04, 0x74, 0x65, 0x73, 0x74, 0x00, 0x2A,
         0x68, 0x65, 0x6C, 0x6C, 0x6F] from rfl]
    with_unfolding_all rfl
  refine ⟨by rw [heq], ?_⟩
  rw [heq]
  simp only [broadcast_outs,
    show buildPublish [0x74, 0x65, 0x73, 0x74] [0x68, 0x65, 0x6C, 0x6C, 0x6F] =
      [0x30, 0x0B, 0x00, 0x04, 0x74, 0x65, 0x73, 0x74, 0x68, 0x65, 0x6C, 0x6C, 0x6F] by
        with_unfolding_all rfl]

/-- C8: fragmentation invariance — delivering one complete frame to a
session with an empty inbox as any sequence of nonempty chunks yields
exactly the same final session state (client id, subscriptions, inbox),
response bytes and log lines as delivering it in one contiguous read. -/
theorem c8_fragmentation_invariance (cfg : Config)
    (clients : List (Int × ClientSession)) (P : List Nat)
    (chunks : List (List Nat)) (fd : Int) (cid : List Nat)
    (subs : List (List Nat)) (hP : singleCompleteFrame P) (hne : chunks ≠ [])
    (hcne : ∀ c ∈ chunks, c ≠ []) (hjoin : chunks.flatten = P) :
    feedAll cfg clients ⟨fd, cid, subs, []⟩ chunks =
      processPacket cfg clients ⟨fd, cid, subs, P⟩ :=
  feedAll_singleFrame cfg clients P hP chunks fd cid subs [] hne hcne (by simpa using hjoin)

/-- C8 witness: the S2 SUBSCRIBE `82 09 00 01 00 04 74 65 73 74 00` split
as `82 09 00` then `01 00 04 74 65 73 74 00` produces the same state and
the same SUBACK `90 03 00 01 00` as the unsplit bytes. -/
theorem c8_witness :
    feedAll defaultConfig [] ⟨1, [], [], []⟩
        [[0x82, 0x09, 0x00], [0x01, 0x00, 0x04, 0x74, 0x65, 0x73, 0x74, 0x00]] =
      processPacket defaultConfig []
        ⟨1, [], [], [0x82, 0x09, 0x00, 0x01, 0x00, 0x04, 0x74, 0x65, 0x73, 0x74, 0x00]⟩ ∧
    processPacket defaultConfig []
        ⟨1, [], [], [0x82, 0x09, 0x00, 0x01, 0x00, 0x04, 0x74, 0x65, 0x73, 0x74, 0x00]⟩ =
      (⟨1, [], [[0x74, 0x65, 0x73, 0x74]], []⟩, [(1, [0x90, 0x03, 0x00, 0x01, 0x00])], []) :=
  ⟨c8_fragmentation_invariance defaultConfig []
     [0x82, 0x09, 0x00, 0x01, 0x00, 0x04, 0x74, 0x65, 0x73, 0x74, 0x00]
     [[0x82, 0x09, 0x00], [0x01, 0x00, 0x04, 0x74, 0x65, 0x73, 0x74, 0x00]] 1 [] []
     ⟨by decide, 2, 9, by decide, by decide⟩ (by decide) (by decide) (by decide),
   by decide⟩

/-- C9: whatever the session's inbox holds, after `processPacket` runs a
session that is still present (its fd not closed) retains no complete
frame: if the head of the leftover inbox decodes to a remaining length at
all, the frame it announces needs more bytes than are buffered. -/
theorem c9_no_complete_frame_left (cfg : Config)
    (clients : List (Int × ClientSession)) (client : ClientSession) (off rl : Nat)
    (hfd : 0 ≤ (processPacket cfg clients client).1.fd)
    (hdec : decodeRemainingLength (processPacket cfg clients client).1.inbox 1 =
      some (off, rl)) :
    (processPacket cfg clients client).1.inbox.length < off + rl :=
  processPacketAux_no_complete cfg clients client.inbox.length client le_rfl off rl hfd hdec

/-- C9 witness: a PINGREQ followed by a truncated PUBLISH header
`30 05`: the PINGREQ is consumed and answered, the leftover two bytes
decode to a 5-byte remaining length needing 7 buffered bytes, and only 2
are present. -/
theorem c9_witness :
    0 ≤ (processPacket defaultConfig [] ⟨2, [], [], [0xC0, 0x00, 0x30, 0x05]⟩).1.fd ∧
    decodeRemainingLength
        (processPacket defaultConfig [] ⟨2, [], [], [0xC0, 0x00, 0x30, 0x05]⟩).1.inbox 1 =
      some (2, 5) ∧
    (processPacket defaultConfig [] ⟨2, [], [], [0xC0, 0x00, 0x30, 0x05]⟩).1.inbox.length < 2 + 5 :=
  ⟨by decide, by decide,
   c9_no_complete_frame_left defaultConfig [] ⟨2, [], [], [0xC0, 0x00, 0x30, 0x05]⟩ 2 5
     (by decide) (by decide)⟩

end MqttDebug
